import Mathlib

/-!
Shallow embedding of `src/hkopenai/hk_misc_mcp_server/tools/auction.py`:
the fetch-and-normalize pipeline for Hong Kong government auction data.

Conventions of the embedding:
* Python `datetime` values produced by this code always have time 00:00,
  so they are modelled as calendar dates (year, month, day) compared
  lexicographically; `datetime(y, m, d)` construction is modelled by
  `mkDatetime`, returning `none` where Python raises `ValueError`
  (year outside 1..9999, month outside 1..12, day outside the month).
* `datetime.strptime(s, "%d/%m/%Y")` is modelled by `pyStrptimeDMY`,
  following CPython's compiled regex for that format: day is one or two
  digits with value 1..31 (pattern `3[01]|[12]\d|0[1-9]|[1-9]`), month is
  one or two digits with value 1..12, year is exactly four digits, the
  separators are literal slashes, and the whole string must be consumed.
  Digits are modelled as ASCII digits.
* A Python `dict` row is modelled as an association list with first-key
  lookup; `k in row` is `rowGet row k ≠ none`, `row.get(k, d)` is `rowGetD`.
* A raised (uncaught) `ValueError` is modelled by `Except.error`; the
  in-band error dictionary `{"type": "Error", "error": msg}` returned by
  the traversal is modelled by `PipeResult.errorDict`.
* `fetch_csv_from_url` is an external collaborator and is a parameter of
  the pipeline: it maps a URL to either a hard error (a dict carrying an
  "error" key) or a list of rows.
-/

/-- A Python `datetime` at midnight: a calendar date. -/
structure PyDate where
  year : Int
  month : Nat
  day : Nat
deriving DecidableEq, Repr

/-- Gregorian leap-year test, as used by Python `datetime`. -/
def isLeap (y : Int) : Bool := y % 4 == 0 && (y % 100 != 0 || y % 400 == 0)

/-- Number of days in a month of a given year (Python `calendar` rules). -/
def daysInMonth (y : Int) (m : Nat) : Nat :=
  if m = 2 then (if isLeap y then 29 else 28)
  else if m = 4 ∨ m = 6 ∨ m = 9 ∨ m = 11 then 30
  else 31

/-- `datetime(y, m, d)`: `some` date when the arguments form a valid
Python datetime, `none` where Python raises `ValueError`. -/
def mkDatetime (y m d : Int) : Option PyDate :=
  if 1 ≤ y ∧ y ≤ 9999 ∧ 1 ≤ m ∧ m ≤ 12 ∧ 1 ≤ d ∧ d ≤ (daysInMonth y m.toNat : Int)
  then some ⟨y, m.toNat, d.toNat⟩ else none

/-- Python `datetime` comparison `a <= b` (times are all midnight here). -/
def pyDateLe (a b : PyDate) : Bool :=
  if a.year < b.year then true
  else if b.year < a.year then false
  else if a.month < b.month then true
  else if b.month < a.month then false
  else decide (a.day ≤ b.day)

/-- Strict comparison `a < b` on dates. -/
def pyDateLt (a b : PyDate) : Bool := !pyDateLe b a

/-- Numeric value of a list of ASCII digit characters. -/
def digitsToNat (ds : List Char) : Nat :=
  ds.foldl (fun a c => a * 10 + (c.toNat - 48)) 0

/-- Split a string into three runs of digits separated by literal slashes,
consuming the whole string: the common skeleton of a `D/M/Y` date string. -/
def splitDMY (s : String) : Option (List Char × List Char × List Char) :=
  let (dds, r1) := s.toList.span Char.isDigit
  match r1 with
  | '/' :: r2 =>
    let (mds, r3) := r2.span Char.isDigit
    match r3 with
    | '/' :: r4 =>
      let (yds, r5) := r4.span Char.isDigit
      if r5 = [] then some (dds, mds, yds) else none
    | _ => none
  | _ => none

/-- `datetime.strptime(s, "%d/%m/%Y")`: CPython accepts a one- or
two-digit day (value 1..31), a one- or two-digit month (value 1..12) and
an exactly four-digit year, then validates the calendar date. Returns
`none` where Python raises `ValueError`. -/
def pyStrptimeDMY (s : String) : Option PyDate :=
  match splitDMY s with
  | some (dds, mds, yds) =>
    if (dds.length = 1 ∨ dds.length = 2) ∧ (mds.length = 1 ∨ mds.length = 2) ∧
        yds.length = 4 then
      let d := digitsToNat dds
      let m := digitsToNat mds
      let y := digitsToNat yds
      if 1 ≤ d ∧ d ≤ 31 ∧ 1 ≤ m ∧ m ≤ 12 then
        mkDatetime (Int.ofNat y) (Int.ofNat m) (Int.ofNat d)
      else none
    else none
  | none => none

/-- Modelled from the spec: parsing a date string strictly as `DD/MM/YYYY`
with a two-digit day, a two-digit month and a four-digit year (spec §4.4
step 2). This is the spec-side notion of "parses as DD/MM/YYYY", to be
compared with the code's `pyStrptimeDMY`. -/
def strictParseDMY (s : String) : Option PyDate :=
  match splitDMY s with
  | some (dds, mds, yds) =>
    if dds.length = 2 ∧ mds.length = 2 ∧ yds.length = 4 then
      let d := digitsToNat dds
      let m := digitsToNat mds
      let y := digitsToNat yds
      if 1 ≤ d ∧ d ≤ 31 ∧ 1 ≤ m ∧ m ≤ 12 then
        mkDatetime (Int.ofNat y) (Int.ofNat m) (Int.ofNat d)
      else none
    else none
  | none => none

/-- Left-pad the decimal form of `n` with zeros to width `w`. -/
def padZero (w n : Nat) : String :=
  let s := toString n
  String.mk (List.replicate (w - s.length) '0') ++ s

/-- `auction_date.isoformat().split("T")[0]`: the ISO `YYYY-MM-DD` form. -/
def isoDate (d : PyDate) : String :=
  padZero 4 d.year.toNat ++ "-" ++ padZero 2 d.month ++ "-" ++ padZero 2 d.day

/-- A raw CSV row: a Python dict from column name to cell value. -/
def Row : Type := List (String × String)

/-- Dict lookup: `row[k]` / presence test `k in row`. -/
def rowGet (r : Row) (k : String) : Option String :=
  (List.find? (fun p => p.1 == k) r).map Prod.snd

/-- Dict lookup with default: `row.get(k, d)`. -/
def rowGetD (r : Row) (k d : String) : String := (rowGet r k).getD d

/-- One output record of the pipeline (the dict built by
`process_auction_row`, with its six fixed keys as fields). -/
structure AuctionRecord where
  dateOfAuction : String
  auctionListNo : String
  lotNo : String
  description : String
  quantity : String
  unit : String
deriving DecidableEq, Repr

/-- Python `str.upper`, modelled per character on ASCII letters. -/
def pyUpper (s : String) : String := String.mk (s.toList.map Char.toUpper)

/-- `validate_language`: uppercase the input and require one of
EN, TC, SC; otherwise raise `ValueError` (modelled as `Except.error`). -/
def validate_language (language : String) : Except String String :=
  let lang := pyUpper language
  if lang ∈ ["EN", "TC", "SC"] then Except.ok lang
  else Except.error "Language must be one of \x27EN\x27, \x27TC\x27, \x27SC\x27"

/-- `create_date_range`: build `datetime(start_year, start_month, 1)` and
`datetime(end_year, end_month, 28)`; a `ValueError` from either
construction propagates (modelled as `Except.error`). -/
def create_date_range (start_year start_month end_year end_month : Int) :
    Except String (PyDate × PyDate) :=
  match mkDatetime start_year start_month 1 with
  | none => Except.error "ValueError: invalid start date"
  | some start_date =>
    match mkDatetime end_year end_month 28 with
    | none => Except.error "ValueError: invalid end date"
    | some end_date => Except.ok (start_date, end_date)

/-- `process_auction_row`: drop the row unless `Description` and
`Quantity` are present; parse `Date of Auction` with `%d/%m/%Y`; on
success keep the row only when the date is within `[start_date, end_date]`
(rewriting it to ISO form); on parse failure keep the row with the raw
date string. -/
def process_auction_row (row : Row) (start_date end_date : PyDate) :
    Option AuctionRecord :=
  match rowGet row "Description", rowGet row "Quantity" with
  | some desc, some qty =>
    let auction_date_str := rowGetD row "Date of Auction" ""
    match pyStrptimeDMY auction_date_str with
    | some auction_date =>
      if pyDateLe start_date auction_date && pyDateLe auction_date end_date then
        some ⟨isoDate auction_date, rowGetD row "Auction List No." "",
              rowGetD row "Lot No." "", desc, qty, rowGetD row "Unit" ""⟩
      else none
    | none =>
      some ⟨auction_date_str, rowGetD row "Auction List No." "",
            rowGetD row "Lot No." "", desc, qty, rowGetD row "Unit" ""⟩
  | _, _ => none

/-- Result of one `fetch_csv_from_url` call: either a dict carrying an
"error" key (a hard fetch error) or a list of parsed CSV rows (empty for
a missing resource). -/
inductive FetchResult where
  | err (msg : String)
  | rows (rs : List Row)

/-- The value returned by `_get_government_auction_data` when no exception
is raised: either the in-band error dict or the list of records. -/
inductive PipeResult where
  | errorDict (msg : String)
  | records (rs : List AuctionRecord)
deriving DecidableEq

/-- `base_url.format(list_no, year, lang)` for the fixed template. -/
def base_url_format (list_no : Nat) (year : Int) (lang : String) : String :=
  "https://www.gld.gov.hk/datagovhk/supplies-mgmt/auctionList_" ++
    toString list_no ++ "-" ++ toString year ++ "_" ++ lang ++ ".csv"

/-- The `while current_year >= start_year` loop of
`_get_government_auction_data`, instrumented with the list of
`(year, list number)` identifiers actually fetched. Each iteration
fetches `(current_year, current_list_no)`; a hard error returns the
error dict at once; otherwise the processed rows are appended to the
accumulator, the list number is decremented, and on dropping below 1 it
resets to 24 while the year is decremented (the inner
`if current_year < start_year: break` coincides with the loop guard). -/
def auctionLoop (fetch : String → FetchResult) (lang : String)
    (start_year : Int) (start_date end_date : PyDate)
    (current_year : Int) (current_list_no : Nat)
    (acc : List AuctionRecord) : List (Int × Nat) × PipeResult :=
  if current_year < start_year then ([], PipeResult.records acc)
  else
    match fetch (base_url_format current_list_no current_year lang) with
    | FetchResult.err m => ([(current_year, current_list_no)], PipeResult.errorDict m)
    | FetchResult.rows rs =>
      let acc2 := acc ++ rs.filterMap (fun r => process_auction_row r start_date end_date)
      let rest :=
        if current_list_no ≤ 1 then
          auctionLoop fetch lang start_year start_date end_date (current_year - 1) 24 acc2
        else
          auctionLoop fetch lang start_year start_date end_date current_year
            (current_list_no - 1) acc2
      ((current_year, current_list_no) :: rest.1, rest.2)
termination_by ((current_year - start_year + 1).toNat * 25 + current_list_no)
decreasing_by
  all_goals simp_wf
  all_goals omega

/-- `_get_government_auction_data`, instrumented with the list of fetched
identifiers: validate the language, build the date range (either step may
raise, modelled as `Except.error`), then run the traversal from
`(end_year, 24)` with an empty accumulator. -/
def getGovernmentAuctionDataTraced (fetch : String → FetchResult)
    (start_year start_month end_year end_month : Int) (language : String) :
    Except String (List (Int × Nat) × PipeResult) := do
  let lang ← validate_language language
  let (start_date, end_date) ← create_date_range start_year start_month end_year end_month
  pure (auctionLoop fetch lang start_year start_date end_date end_year 24 [])

/-- `_get_government_auction_data`: the traced pipeline without the
instrumentation. -/
def getGovernmentAuctionData (fetch : String → FetchResult)
    (start_year start_month end_year end_month : Int) (language : String) :
    Except String PipeResult :=
  (getGovernmentAuctionDataTraced fetch start_year start_month end_year
    end_month language).map Prod.snd

/-- Modelled from the spec: "year from endYear down to startYear" (§4.2). -/
def specYearList (start_year end_year : Int) : List Int :=
  (List.range (end_year + 1 - start_year).toNat).map (fun (i : Nat) => end_year - (i : Int))

/-- The list `[n, n-1, ..., 1]`: "listNumber from 24 down to 1" at `n = 24`. -/
def descNats : Nat → List Nat
  | 0 => []
  | n + 1 => (n + 1) :: descNats n

/-- Modelled from the spec: the identifiers `(year, listNumber)` for year
from endYear down to startYear and listNumber from 24 down to 1 within
each year, in that descending order (§4.2, §8). -/
def specIds (start_year end_year : Int) : List (Int × Nat) :=
  (specYearList start_year end_year).flatMap (fun y => (descNats 24).map (fun n => (y, n)))

/-- Strict descending order on `(year, listNumber)` identifiers:
`a` comes strictly after `b` when `a` is smaller in the lexicographic
order on (year, list number). -/
def idLt (a b : Int × Nat) : Prop :=
  a.1 < b.1 ∨ (a.1 = b.1 ∧ a.2 < b.2)

/-- The fetch target of one identifier, at a given language. -/
def urlOfId (lang : String) (p : Int × Nat) : String :=
  base_url_format p.2 p.1 lang

/-- The identifiers still to be visited when the loop state is
`(year, listNo)`: list numbers `listNo` down to 1 in the current year,
then all identifiers of the earlier years down to `start_year`. -/
def traversalIds (start_year year : Int) (listNo : Nat) : List (Int × Nat) :=
  if year < start_year then []
  else (descNats listNo).map (fun k => (year, k)) ++ specIds start_year (year - 1)

/-- Structural replay of the traversal over an explicit identifier list:
fetch each identifier in turn, short-circuit on a hard error, otherwise
append the normalized rows to the accumulator. `auctionLoop` is proved
equal to `runIds` over `traversalIds`. -/
def runIds (fetch : String → FetchResult) (lang : String) (sd ed : PyDate) :
    List (Int × Nat) → List AuctionRecord → List (Int × Nat) × PipeResult
  | [], acc => ([], PipeResult.records acc)
  | p :: rest, acc =>
    match fetch (urlOfId lang p) with
    | FetchResult.err m => ([p], PipeResult.errorDict m)
    | FetchResult.rows rs =>
      let r := runIds fetch lang sd ed rest
        (acc ++ rs.filterMap (fun x => process_auction_row x sd ed))
      (p :: r.1, r.2)

/-- Year/month pair acceptable to Python `datetime`: month 1..12 and year
within the host calendar limits 1..9999. -/
def validYM (y m : Int) : Prop := 1 ≤ y ∧ y ≤ 9999 ∧ 1 ≤ m ∧ m ≤ 12

instance (y m : Int) : Decidable (validYM y m) := by
  unfold validYM
  exact inferInstance

/-- A fetcher returning, for exactly one URL, a single row whose
`Description` column is present but empty. -/
def fetchC8 : String → FetchResult := fun u =>
  if u = base_url_format 24 2023 "EN" then
    FetchResult.rows [[("Description", ""), ("Quantity", "1")]]
  else FetchResult.rows []

/-- A fetcher returning, for exactly one URL, a single row whose
`Date of Auction` value does not parse as a date. -/
def fetchC9 : String → FetchResult := fun u =>
  if u = base_url_format 24 2024 "EN" then
    FetchResult.rows [[("Date of Auction", "bad"), ("Description", "X"), ("Quantity", "1")]]
  else FetchResult.rows []

/-- A fully-populated raw row with a parseable auction date. -/
def rowC4 : Row :=
  [("Date of Auction", "21/03/2024"), ("Auction List No.", "5/2024"),
   ("Lot No.", "C-401"), ("Description", "Watch"), ("Quantity", "270"),
   ("Unit", "Nos.")]

/-! ## Traversal structure lemmas -/

theorem descNats_length : ∀ n, (descNats n).length = n
  | 0 => rfl
  | n + 1 => by simp [descNats, descNats_length n]

theorem descNats_peel {n : Nat} (h : 1 ≤ n) : descNats n = n :: descNats (n - 1) := by
  cases n with
  | zero => omega
  | succ m => rfl

theorem specYearList_nil {sy ey : Int} (h : ey < sy) : specYearList sy ey = [] := by
  unfold specYearList
  have : (ey + 1 - sy).toNat = 0 := by omega
  simp [this]

theorem specYearList_cons {sy ey : Int} (h : sy ≤ ey) :
    specYearList sy ey = ey :: specYearList sy (ey - 1) := by
  unfold specYearList
  have h1 : (ey + 1 - sy).toNat = (ey - 1 + 1 - sy).toNat + 1 := by omega
  rw [h1, List.range_succ_eq_map, List.map_cons, List.map_map]
  congr 1
  · omega
  · apply List.map_congr_left
    intro a _
    simp only [Function.comp_apply, Nat.succ_eq_add_one]
    push_cast
    omega

theorem specIds_nil {sy ey : Int} (h : ey < sy) : specIds sy ey = [] := by
  unfold specIds
  rw [specYearList_nil h]
  rfl

theorem specIds_cons {sy ey : Int} (h : sy ≤ ey) :
    specIds sy ey = (descNats 24).map (fun n => (ey, n)) ++ specIds sy (ey - 1) := by
  unfold specIds
  rw [specYearList_cons h]
  simp [List.flatMap_cons]

theorem specIds_eq_traversalIds (sy x : Int) : specIds sy x = traversalIds sy x 24 := by
  unfold traversalIds
  by_cases h : x < sy
  · rw [specIds_nil h, if_pos h]
  · rw [specIds_cons (by omega), if_neg h]

theorem traversalIds_nil {sy y : Int} {n : Nat} (h : y < sy) : traversalIds sy y n = [] := by
  unfold traversalIds
  rw [if_pos h]

theorem traversalIds_peel {sy y : Int} {n : Nat} (hy : ¬ y < sy) (hn : 1 ≤ n) :
    traversalIds sy y n =
      (y, n) :: (if n ≤ 1 then traversalIds sy (y - 1) 24 else traversalIds sy y (n - 1)) := by
  conv_lhs => rw [traversalIds]
  rw [if_neg hy, descNats_peel hn, List.map_cons]
  by_cases h1 : n ≤ 1
  · have hn1 : n = 1 := by omega
    subst hn1
    rw [if_pos (by omega)]
    rw [← specIds_eq_traversalIds]
    rfl
  · rw [if_neg h1]
    unfold traversalIds
    rw [if_neg hy]
    rfl

theorem specIds_length (sy ey : Int) : (specIds sy ey).length = 24 * (ey + 1 - sy).toNat := by
  have hlen : ∀ l : List Int,
      ((l.flatMap (fun y => (descNats 24).map (fun n => (y, n))))).length = 24 * l.length := by
    intro l
    induction l with
    | nil => simp
    | cons a t ih =>
      rw [List.flatMap_cons, List.length_append, ih, List.length_map, descNats_length]
      simp only [List.length_cons]
      ring
  unfold specIds
  rw [hlen]
  unfold specYearList
  simp

/-! ## Bridge: the while loop equals the structural replay -/

theorem auctionLoop_eq_aux (fetch : String → FetchResult) (lang : String)
    (sy : Int) (sd ed : PyDate) :
    ∀ (M : Nat) (y : Int) (n : Nat) (acc : List AuctionRecord),
      (y - sy + 1).toNat * 25 + n ≤ M → 1 ≤ n →
      auctionLoop fetch lang sy sd ed y n acc =
        runIds fetch lang sd ed (traversalIds sy y n) acc := by
  intro M
  induction M with
  | zero => intro y n acc hM hn; omega
  | succ M ih =>
    intro y n acc hM hn
    rw [auctionLoop]
    by_cases hy : y < sy
    · rw [if_pos hy, traversalIds_nil hy]
      rfl
    · rw [if_neg hy, traversalIds_peel hy hn]
      have hurl : urlOfId lang (y, n) = base_url_format n y lang := rfl
      cases hf : fetch (base_url_format n y lang) with
      | err m =>
        rw [runIds, hurl, hf]
      | rows rs =>
        rw [runIds, hurl, hf]
        dsimp only
        by_cases h1 : n ≤ 1
        · rw [if_pos h1, if_pos h1]
          rw [ih (y - 1) 24
            (acc ++ rs.filterMap (fun r => process_auction_row r sd ed))
            (by omega) (by omega)]
        · rw [if_neg h1, if_neg h1]
          rw [ih y (n - 1)
            (acc ++ rs.filterMap (fun r => process_auction_row r sd ed))
            (by omega) (by omega)]

theorem auctionLoop_eq_runIds (fetch : String → FetchResult) (lang : String)
    (sy : Int) (sd ed : PyDate) (y : Int) (n : Nat) (acc : List AuctionRecord)
    (hn : 1 ≤ n) :
    auctionLoop fetch lang sy sd ed y n acc =
      runIds fetch lang sd ed (traversalIds sy y n) acc :=
  auctionLoop_eq_aux fetch lang sy sd ed ((y - sy + 1).toNat * 25 + n) y n acc le_rfl hn

/-- The traced pipeline, after successful validation, is the structural
replay over the spec identifier list. -/
theorem getDataTraced_run (fetch : String → FetchResult)
    (sy sm ey em : Int) (language lang : String) (sd ed : PyDate)
    (hlang : validate_language language = Except.ok lang)
    (hrange : create_date_range sy sm ey em = Except.ok (sd, ed)) :
    getGovernmentAuctionDataTraced fetch sy sm ey em language =
      Except.ok (runIds fetch lang sd ed (specIds sy ey) []) := by
  unfold getGovernmentAuctionDataTraced
  rw [hlang, hrange]
  show Except.ok (auctionLoop fetch lang sy sd ed ey 24 []) = _
  rw [auctionLoop_eq_runIds fetch lang sy sd ed ey 24 [] (by omega),
    ← specIds_eq_traversalIds]

/-! ## Replay behaviour lemmas -/

theorem runIds_fst_length (fetch : String → FetchResult) (lang : String) (sd ed : PyDate) :
    ∀ (ids : List (Int × Nat)) (acc : List AuctionRecord),
      ((runIds fetch lang sd ed ids acc).1).length ≤ ids.length := by
  intro ids
  induction ids with
  | nil => intro acc; simp [runIds]
  | cons p t ih =>
    intro acc
    rw [runIds]
    cases hf : fetch (urlOfId lang p) with
    | err m => simp
    | rows rs =>
      dsimp only
      simp only [List.length_cons]
      exact Nat.succ_le_succ (ih _)

theorem runIds_noerr (fetch : String → FetchResult) (lang : String) (sd ed : PyDate) :
    ∀ (ids : List (Int × Nat)) (acc : List AuctionRecord),
      (∀ p ∈ ids, ∀ m, fetch (urlOfId lang p) ≠ FetchResult.err m) →
      ∃ rs, runIds fetch lang sd ed ids acc = (ids, PipeResult.records rs) := by
  intro ids
  induction ids with
  | nil => intro acc _; exact ⟨acc, rfl⟩
  | cons p t ih =>
    intro acc h
    cases hf : fetch (urlOfId lang p) with
    | err m => exact absurd hf (h p (List.mem_cons_self p t) m)
    | rows rs =>
      obtain ⟨rs', hrs'⟩ :=
        ih (acc ++ rs.filterMap (fun x => process_auction_row x sd ed))
          (fun q hq m => h q (List.mem_cons_of_mem p hq) m)
      refine ⟨rs', ?_⟩
      rw [runIds, hf]
      dsimp only
      rw [hrs']

theorem runIds_all_filtered (fetch : String → FetchResult) (lang : String) (sd ed : PyDate) :
    ∀ (ids : List (Int × Nat)) (acc : List AuctionRecord),
      (∀ p ∈ ids, ∀ m, fetch (urlOfId lang p) ≠ FetchResult.err m) →
      (∀ p ∈ ids, ∀ rs, fetch (urlOfId lang p) = FetchResult.rows rs →
        rs.filterMap (fun x => process_auction_row x sd ed) = []) →
      runIds fetch lang sd ed ids acc = (ids, PipeResult.records acc) := by
  intro ids
  induction ids with
  | nil => intro acc _ _; rfl
  | cons p t ih =>
    intro acc herr hfil
    cases hf : fetch (urlOfId lang p) with
    | err m => exact absurd hf (herr p (List.mem_cons_self p t) m)
    | rows rs =>
      rw [runIds, hf]
      dsimp only
      rw [hfil p (List.mem_cons_self p t) rs hf, List.append_nil]
      rw [ih acc (fun q hq m => herr q (List.mem_cons_of_mem p hq) m)
        (fun q hq rs' h' => hfil q (List.mem_cons_of_mem p hq) rs' h')]

theorem runIds_err (fetch : String → FetchResult) (lang : String) (sd ed : PyDate) :
    ∀ (ids : List (Int × Nat)) (k : Nat) (p : Int × Nat) (acc : List AuctionRecord)
      (m : String),
      ids[k]? = some p → fetch (urlOfId lang p) = FetchResult.err m →
      (∀ j q, j < k → ids[j]? = some q → ∀ mq, fetch (urlOfId lang q) ≠ FetchResult.err mq) →
      runIds fetch lang sd ed ids acc = (ids.take (k + 1), PipeResult.errorDict m) := by
  intro ids
  induction ids with
  | nil => intro k p acc m hk; simp at hk
  | cons a t ih =>
    intro k p acc m hk hf hprev
    cases k with
    | zero =>
      simp only [List.getElem?_cons_zero, Option.some.injEq] at hk
      subst hk
      rw [runIds, hf]
      rfl
    | succ k =>
      cases hfa : fetch (urlOfId lang a) with
      | err m' =>
        exact absurd hfa (hprev 0 a (Nat.succ_pos k) (by simp) m')
      | rows rs =>
        rw [runIds, hfa]
        dsimp only
        rw [ih k p (acc ++ rs.filterMap (fun x => process_auction_row x sd ed)) m
          (by simpa using hk) hf
          (fun j q hj hq mq => hprev (j + 1) q (by omega) (by simpa using hq) mq)]
        rfl

/-! ## Descending-order lemmas for the spec identifier list -/

theorem descNats_map_chain (y : Int) :
    ∀ n, List.Chain' (fun a b => idLt b a) ((descNats n).map (fun k => ((y, k) : Int × Nat)))
  | 0 => List.chain'_nil
  | 1 => List.chain'_singleton _
  | n + 2 => by
    have hpeel : descNats (n + 2) = (n + 2) :: (n + 1) :: descNats n := rfl
    rw [hpeel, List.map_cons, List.map_cons, List.chain'_cons]
    exact ⟨Or.inr ⟨rfl, by omega⟩, by
      have := descNats_map_chain y (n + 1)
      rwa [show descNats (n + 1) = (n + 1) :: descNats n from rfl, List.map_cons] at this⟩

theorem descNats_map_getLast (y : Int) :
    ∀ n, 1 ≤ n → (((descNats n).map (fun k => ((y, k) : Int × Nat))).getLast? = some (y, 1))
  | 1, _ => rfl
  | n + 2, _ => by
    have hpeel : descNats (n + 2) = (n + 2) :: (n + 1) :: descNats n := rfl
    rw [hpeel, List.map_cons, List.map_cons, List.getLast?_cons_cons]
    have := descNats_map_getLast y (n + 1) (by omega)
    rwa [show descNats (n + 1) = (n + 1) :: descNats n from rfl, List.map_cons] at this

theorem specIds_head {sy ey : Int} (h : sy ≤ ey) :
    (specIds sy ey).head? = some (ey, 24) := by
  rw [specIds_cons h]
  rfl

theorem specIds_chain_aux (sy : Int) :
    ∀ (t : Nat) (ey : Int), (ey + 1 - sy).toNat ≤ t →
      List.Chain' (fun a b => idLt b a) (specIds sy ey)
  | 0, ey, h => by
    rw [specIds_nil (by omega)]
    exact List.chain'_nil
  | t + 1, ey, h => by
    by_cases hy : ey < sy
    · rw [specIds_nil hy]
      exact List.chain'_nil
    · rw [specIds_cons (by omega), List.chain'_append]
      refine ⟨descNats_map_chain ey 24,
        specIds_chain_aux sy t (ey - 1) (by omega), ?_⟩
      intro x hx z hz
      rw [descNats_map_getLast ey 24 (by omega)] at hx
      simp only [Option.mem_def, Option.some.injEq] at hx
      subst hx
      by_cases hy2 : sy ≤ ey - 1
      · rw [specIds_head hy2] at hz
        simp only [Option.mem_def, Option.some.injEq] at hz
        subst hz
        exact Or.inl (by omega)
      · rw [specIds_nil (by omega)] at hz
        simp at hz

theorem specIds_chain (sy ey : Int) :
    List.Chain' (fun a b => idLt b a) (specIds sy ey) :=
  specIds_chain_aux sy (ey + 1 - sy).toNat ey le_rfl

/-! ## Date and parse lemmas -/

theorem pyDateLe_iff (a b : PyDate) :
    pyDateLe a b = true ↔
      (a.year < b.year ∨ (a.year = b.year ∧
        (a.month < b.month ∨ (a.month = b.month ∧ a.day ≤ b.day)))) := by
  unfold pyDateLe
  split_ifs <;> simp_all <;> omega

theorem filter_false_of_empty_range {sd ed : PyDate} (h : pyDateLt ed sd = true)
    (d : PyDate) : (pyDateLe sd d && pyDateLe d ed) = false := by
  have hse : ¬ (pyDateLe sd ed = true) := by
    unfold pyDateLt at h
    simp only [Bool.not_eq_true'] at h
    rw [h]
    simp
  cases hb : pyDateLe sd d with
  | false => rfl
  | true =>
    cases hc : pyDateLe d ed with
    | false => rfl
    | true =>
      exfalso
      rw [pyDateLe_iff] at hb hc hse
      omega

theorem strictParse_imp_py {s : String} {d : PyDate} (h : strictParseDMY s = some d) :
    pyStrptimeDMY s = some d := by
  unfold strictParseDMY at h
  unfold pyStrptimeDMY
  cases hs : splitDMY s with
  | none => rw [hs] at h; exact absurd h (by simp)
  | some t =>
    obtain ⟨dds, mds, yds⟩ := t
    rw [hs] at h
    dsimp only at h ⊢
    split at h
    case isTrue hc =>
      rw [if_pos ⟨Or.inr hc.1, Or.inr hc.2.1, hc.2.2⟩]
      exact h
    case isFalse => exact absurd h (by simp)

theorem daysInMonth_bounds (y : Int) (m : Nat) :
    28 ≤ daysInMonth y m ∧ daysInMonth y m ≤ 31 := by
  unfold daysInMonth
  split_ifs <;> omega

theorem mkDatetime_day1 (y m : Int) :
    mkDatetime y m 1 = if validYM y m then some ⟨y, m.toNat, 1⟩ else none := by
  have h28 := daysInMonth_bounds y m.toNat
  unfold mkDatetime validYM
  split_ifs <;> first | rfl | omega

theorem mkDatetime_day28 (y m : Int) :
    mkDatetime y m 28 = if validYM y m then some ⟨y, m.toNat, 28⟩ else none := by
  have h28 := daysInMonth_bounds y m.toNat
  unfold mkDatetime validYM
  split_ifs <;> first | rfl | omega

theorem process_none_of_empty_range {sd ed : PyDate} (h : pyDateLt ed sd = true)
    (r : Row) (d : PyDate)
    (hP : pyStrptimeDMY (rowGetD r "Date of Auction" "") = some d) :
    process_auction_row r sd ed = none := by
  unfold process_auction_row
  cases hD : rowGet r "Description" with
  | none => rfl
  | some desc =>
    cases hQ : rowGet r "Quantity" with
    | none => rfl
    | some qty =>
      dsimp only
      rw [hP]
      dsimp only
      rw [filter_false_of_empty_range h d]
      rfl

/-! ## Claims -/

/-- C3: a row lacking the `Description` column or the `Quantity` column is
mapped to `none` by `process_auction_row` for every date range, so it
appears nowhere in the output regardless of its date. -/
theorem claim_C3_missing_columns (row : Row) (sd ed : PyDate)
    (h : rowGet row "Description" = none ∨ rowGet row "Quantity" = none) :
    process_auction_row row sd ed = none := by
  unfold process_auction_row
  rcases h with h | h
  · rw [h]
  · cases h1 : rowGet row "Description" with
    | none => rfl
    | some d => rw [h]

theorem claim_C3_witness :
    (rowGet [("Date of Auction", "21/03/2024")] "Description" = none ∨
      rowGet [("Date of Auction", "21/03/2024")] "Quantity" = none) ∧
    process_auction_row [("Date of Auction", "21/03/2024")] ⟨2024, 1, 1⟩ ⟨2024, 12, 28⟩ =
      none :=
  ⟨Or.inl (by decide),
    claim_C3_missing_columns [("Date of Auction", "21/03/2024")] ⟨2024, 1, 1⟩
      ⟨2024, 12, 28⟩ (Or.inl (by decide))⟩

/-- C4: for a row containing `Description` and `Quantity` whose
`Date of Auction` parses strictly as `DD/MM/YYYY`, `process_auction_row`
returns the record with the date rewritten to ISO `YYYY-MM-DD` and the
other five fields copied (missing optional columns defaulting to the
empty string) when the date lies within `[start, end]` inclusive, and
`none` when it lies outside. -/
theorem claim_C4_parseable_date (row : Row) (sd ed : PyDate) (desc qty : String)
    (d : PyDate)
    (hD : rowGet row "Description" = some desc)
    (hQ : rowGet row "Quantity" = some qty)
    (hP : strictParseDMY (rowGetD row "Date of Auction" "") = some d) :
    process_auction_row row sd ed =
      (if pyDateLe sd d && pyDateLe d ed then
        some ⟨isoDate d, rowGetD row "Auction List No." "", rowGetD row "Lot No." "",
              desc, qty, rowGetD row "Unit" ""⟩
      else none) := by
  have hp : pyStrptimeDMY (rowGetD row "Date of Auction" "") = some d :=
    strictParse_imp_py hP
  unfold process_auction_row
  rw [hD, hQ]
  dsimp only
  rw [hp]

theorem claim_C4_witness :
    rowGet rowC4 "Description" = some "Watch" ∧
    rowGet rowC4 "Quantity" = some "270" ∧
    strictParseDMY (rowGetD rowC4 "Date of Auction" "") = some ⟨2024, 3, 21⟩ ∧
    process_auction_row rowC4 ⟨2024, 1, 1⟩ ⟨2024, 12, 28⟩ =
      (if pyDateLe ⟨2024, 1, 1⟩ ⟨2024, 3, 21⟩ && pyDateLe ⟨2024, 3, 21⟩ ⟨2024, 12, 28⟩ then
        some ⟨isoDate ⟨2024, 3, 21⟩, rowGetD rowC4 "Auction List No." "",
              rowGetD rowC4 "Lot No." "", "Watch", "270", rowGetD rowC4 "Unit" ""⟩
      else none) :=
  ⟨by decide, by decide, by decide,
    claim_C4_parseable_date rowC4 ⟨2024, 1, 1⟩ ⟨2024, 12, 28⟩ "Watch" "270"
      ⟨2024, 3, 21⟩ (by decide) (by decide) (by decide)⟩

/-- C5 (amended): for a row containing `Description` and `Quantity` whose
`Date of Auction` string fails to parse under the code's parser (which,
unlike the spec's strict `DD/MM/YYYY`, also accepts one-digit days and
months), `process_auction_row` returns a record with `dateOfAuction`
equal to the original raw string and the other fields copied, for every
date range. -/
theorem claim_C5_amended (row : Row) (sd ed : PyDate) (desc qty : String)
    (hD : rowGet row "Description" = some desc)
    (hQ : rowGet row "Quantity" = some qty)
    (hP : pyStrptimeDMY (rowGetD row "Date of Auction" "") = none) :
    process_auction_row row sd ed =
      some ⟨rowGetD row "Date of Auction" "", rowGetD row "Auction List No." "",
            rowGetD row "Lot No." "", desc, qty, rowGetD row "Unit" ""⟩ := by
  unfold process_auction_row
  rw [hD, hQ]
  dsimp only
  rw [hP]

/-- C5 as frozen is false on the code: the string "1/1/2023" does not
parse strictly as `DD/MM/YYYY` (one-digit day and month), yet the code
parses it leniently and, the date lying outside the range, returns
`none` rather than a record carrying the raw string. -/
theorem claim_C5_counterexample :
    rowGet [("Date of Auction", "1/1/2023"), ("Description", "X"), ("Quantity", "1")]
        "Description" = some "X" ∧
    rowGet [("Date of Auction", "1/1/2023"), ("Description", "X"), ("Quantity", "1")]
        "Quantity" = some "1" ∧
    strictParseDMY
      (rowGetD [("Date of Auction", "1/1/2023"), ("Description", "X"), ("Quantity", "1")]
        "Date of Auction" "") = none ∧
    process_auction_row
      [("Date of Auction", "1/1/2023"), ("Description", "X"), ("Quantity", "1")]
      ⟨2024, 1, 1⟩ ⟨2024, 12, 28⟩ = none := by
  decide

theorem claim_C5_witness :
    rowGet [("Date of Auction", "Invalid Date"), ("Description", "X"), ("Quantity", "1")]
        "Description" = some "X" ∧
    rowGet [("Date of Auction", "Invalid Date"), ("Description", "X"), ("Quantity", "1")]
        "Quantity" = some "1" ∧
    pyStrptimeDMY
      (rowGetD [("Date of Auction", "Invalid Date"), ("Description", "X"), ("Quantity", "1")]
        "Date of Auction" "") = none ∧
    process_auction_row
      [("Date of Auction", "Invalid Date"), ("Description", "X"), ("Quantity", "1")]
      ⟨2024, 1, 1⟩ ⟨2024, 12, 28⟩ =
        some ⟨"Invalid Date", "", "", "X", "1", ""⟩ :=
  ⟨by decide, by decide, by decide, by
    rw [claim_C5_amended
      [("Date of Auction", "Invalid Date"), ("Description", "X"), ("Quantity", "1")]
      ⟨2024, 1, 1⟩ ⟨2024, 12, 28⟩ "X" "1" (by decide) (by decide) (by decide)]
    decide⟩

/-- C6: `validate_language` returns exactly the uppercased input when that
uppercase form is one of EN, TC, SC (so acceptance is case-insensitive),
and raises the invalid-argument error for every other input. -/
theorem claim_C6_validate_language (s : String) :
    (∀ l, validate_language s = Except.ok l ↔
      (l = pyUpper s ∧ l ∈ ["EN", "TC", "SC"])) ∧
    (pyUpper s ∉ ["EN", "TC", "SC"] →
      validate_language s =
        Except.error "Language must be one of \x27EN\x27, \x27TC\x27, \x27SC\x27") := by
  unfold validate_language
  dsimp only
  by_cases h : pyUpper s ∈ ["EN", "TC", "SC"]
  · rw [if_pos h]
    refine ⟨fun l => ⟨fun hl => ⟨(Except.ok.inj hl).symm, ?_⟩, fun hl => by rw [hl.1]⟩,
      fun hn => absurd h hn⟩
    rw [← Except.ok.inj hl]
    exact h
  · rw [if_neg h]
    refine ⟨fun l => ⟨fun hl => absurd hl (by simp), fun hl => ?_⟩, fun _ => rfl⟩
    rw [hl.1] at hl
    exact absurd hl.2 h

theorem claim_C6_witness :
    validate_language "en" = Except.ok "EN" ∧
    validate_language "xx" =
      Except.error "Language must be one of \x27EN\x27, \x27TC\x27, \x27SC\x27" :=
  ⟨((claim_C6_validate_language "en").1 "EN").mpr ⟨by decide, by decide⟩,
    (claim_C6_validate_language "xx").2 (by decide)⟩

/-- C7: `create_date_range` returns the pair with start `(startYear,
startMonth, 1)` and end `(endYear, endMonth, 28)` — no swapping even when
start > end — and raises exactly when a month is outside 1..12 or the
year/month pair cannot form a host calendar date (year outside 1..9999). -/
theorem claim_C7_create_date_range (sy sm ey em : Int) :
    (validYM sy sm ∧ validYM ey em →
      create_date_range sy sm ey em =
        Except.ok (⟨sy, sm.toNat, 1⟩, ⟨ey, em.toNat, 28⟩)) ∧
    (¬ (validYM sy sm ∧ validYM ey em) →
      ∃ msg, create_date_range sy sm ey em = Except.error msg) := by
  unfold create_date_range
  rw [mkDatetime_day1, mkDatetime_day28]
  constructor
  · rintro ⟨h1, h2⟩
    rw [if_pos h1, if_pos h2]
  · intro h
    by_cases h1 : validYM sy sm
    · have h2 : ¬ validYM ey em := fun hx => h ⟨h1, hx⟩
      rw [if_pos h1, if_neg h2]
      exact ⟨_, rfl⟩
    · rw [if_neg h1]
      exact ⟨_, rfl⟩

theorem claim_C7_witness :
    (validYM 2023 1 ∧ validYM 2023 12) ∧
    create_date_range 2023 1 2023 12 = Except.ok (⟨2023, 1, 1⟩, ⟨2023, 12, 28⟩) ∧
    (¬ (validYM 2023 0 ∧ validYM 2023 12)) ∧
    (∃ msg, create_date_range 2023 0 2023 12 = Except.error msg) :=
  ⟨⟨by decide, by decide⟩,
    (claim_C7_create_date_range 2023 1 2023 12).1 ⟨by decide, by decide⟩,
    by decide,
    (claim_C7_create_date_range 2023 0 2023 12).2 (by decide)⟩

/-- C1: for valid inputs (validated language, valid months,
endYear ≥ startYear) and a fetcher that never reports a hard error, the
traversal fetches exactly the identifiers `(year, listNumber)` for year
from endYear down to startYear and listNumber from 24 down to 1 within
each year, in strictly descending `(year, listNumber)` order starting
from `(endYear, 24)`, and no other identifiers. -/
theorem claim_C1_traversal (fetch : String → FetchResult)
    (sy sm ey em : Int) (language lang : String) (sd ed : PyDate)
    (hlang : validate_language language = Except.ok lang)
    (hrange : create_date_range sy sm ey em = Except.ok (sd, ed))
    (hyr : sy ≤ ey)
    (hfetch : ∀ u m, fetch u ≠ FetchResult.err m) :
    (∃ res, getGovernmentAuctionDataTraced fetch sy sm ey em language =
        Except.ok (specIds sy ey, res)) ∧
    List.Chain' (fun a b => idLt b a) (specIds sy ey) ∧
    (specIds sy ey).head? = some (ey, 24) := by
  refine ⟨?_, specIds_chain sy ey, specIds_head hyr⟩
  rw [getDataTraced_run fetch sy sm ey em language lang sd ed hlang hrange]
  obtain ⟨rs, hrs⟩ := runIds_noerr fetch lang sd ed (specIds sy ey) []
    (fun p _ m => hfetch (urlOfId lang p) m)
  exact ⟨PipeResult.records rs, by rw [hrs]⟩

theorem claim_C1_witness :
    validate_language "EN" = Except.ok "EN" ∧
    create_date_range 2023 1 2023 2 = Except.ok (⟨2023, 1, 1⟩, ⟨2023, 2, 28⟩) ∧
    ((2023 : Int) ≤ 2023) ∧
    ((∃ res, getGovernmentAuctionDataTraced (fun _ => FetchResult.rows [])
        2023 1 2023 2 "EN" = Except.ok (specIds 2023 2023, res)) ∧
      List.Chain' (fun a b => idLt b a) (specIds 2023 2023) ∧
      (specIds 2023 2023).head? = some (2023, 24)) :=
  ⟨rfl, rfl, by decide,
    claim_C1_traversal (fun _ => FetchResult.rows []) 2023 1 2023 2 "EN" "EN"
      ⟨2023, 1, 1⟩ ⟨2023, 2, 28⟩ rfl rfl (by decide)
      (fun _ _ h => FetchResult.noConfusion h)⟩

/-- C2: if the fetch at traversal step `k` reports a hard error (and no
earlier step did), the whole call returns the error dict as its sole
result — all records accumulated at earlier steps are discarded — and
the trace stops at step `k`: no later identifier is fetched. -/
theorem claim_C2_error_shortcircuit (fetch : String → FetchResult)
    (sy sm ey em : Int) (language lang : String) (sd ed : PyDate)
    (k : Nat) (p : Int × Nat) (m : String)
    (hlang : validate_language language = Except.ok lang)
    (hrange : create_date_range sy sm ey em = Except.ok (sd, ed))
    (hk : (specIds sy ey)[k]? = some p)
    (herr : fetch (urlOfId lang p) = FetchResult.err m)
    (hprev : ∀ j q, j < k → (specIds sy ey)[j]? = some q →
      ∀ mq, fetch (urlOfId lang q) ≠ FetchResult.err mq) :
    getGovernmentAuctionDataTraced fetch sy sm ey em language =
      Except.ok ((specIds sy ey).take (k + 1), PipeResult.errorDict m) := by
  rw [getDataTraced_run fetch sy sm ey em language lang sd ed hlang hrange]
  rw [runIds_err fetch lang sd ed (specIds sy ey) k p [] m hk herr hprev]

theorem claim_C2_witness :
    ((specIds 2023 2023)[0]? = some ((2023 : Int), 24)) ∧
    getGovernmentAuctionDataTraced (fun _ => FetchResult.err "boom") 2023 1 2023 1 "EN" =
      Except.ok ((specIds 2023 2023).take 1, PipeResult.errorDict "boom") :=
  ⟨by decide,
    claim_C2_error_shortcircuit (fun _ => FetchResult.err "boom") 2023 1 2023 1
      "EN" "EN" ⟨2023, 1, 1⟩ ⟨2023, 1, 28⟩ 0 (2023, 24) "boom" rfl rfl
      (by decide) rfl (fun j q hj _ mq => absurd hj (Nat.not_lt_zero j))⟩

/-- C8 (amended): every record produced by the row normalizer copies the
`Description` and `Quantity` values of columns present in the source row
(they may be empty strings — presence, not non-emptiness, is what the
code checks), and each of the other four fields is the empty string
whenever the corresponding column was absent upstream. -/
theorem claim_C8_amended (row : Row) (sd ed : PyDate) (rec : AuctionRecord)
    (h : process_auction_row row sd ed = some rec) :
    rowGet row "Description" = some rec.description ∧
    rowGet row "Quantity" = some rec.quantity ∧
    (rowGet row "Auction List No." = none → rec.auctionListNo = "") ∧
    (rowGet row "Lot No." = none → rec.lotNo = "") ∧
    (rowGet row "Unit" = none → rec.unit = "") ∧
    (rowGet row "Date of Auction" = none → rec.dateOfAuction = "") := by
  unfold process_auction_row at h
  cases hD : rowGet row "Description" with
  | none => rw [hD] at h; exact absurd h (by simp)
  | some desc =>
    cases hQ : rowGet row "Quantity" with
    | none => rw [hD, hQ] at h; exact absurd h (by simp)
    | some qty =>
      rw [hD, hQ] at h
      dsimp only at h
      cases hP : pyStrptimeDMY (rowGetD row "Date of Auction" "") with
      | some d =>
        rw [hP] at h
        dsimp only at h
        split at h
        · injection h with h'
          subst h'
          refine ⟨by simp [hD], by simp [hQ], ?_, ?_, ?_, ?_⟩
          · intro hx; simp [rowGetD, hx]
          · intro hx; simp [rowGetD, hx]
          · intro hx; simp [rowGetD, hx]
          · intro hx
            have hempty : rowGetD row "Date of Auction" "" = "" := by
              simp [rowGetD, hx]
            rw [hempty] at hP
            have hnone : pyStrptimeDMY "" = none := by decide
            rw [hnone] at hP
            exact Option.noConfusion hP
        · exact absurd h (by simp)
      | none =>
        rw [hP] at h
        dsimp only at h
        injection h with h'
        subst h'
        refine ⟨by simp [hD], by simp [hQ], ?_, ?_, ?_, ?_⟩
        · intro hx; simp [rowGetD, hx]
        · intro hx; simp [rowGetD, hx]
        · intro hx; simp [rowGetD, hx]
        · intro hx; simp [rowGetD, hx]

theorem claim_C8_witness :
    process_auction_row [("Description", "D"), ("Quantity", "Q")] ⟨2024, 1, 1⟩
        ⟨2024, 12, 28⟩ = some ⟨"", "", "", "D", "Q", ""⟩ ∧
    (rowGet [("Description", "D"), ("Quantity", "Q")] "Description" =
        some (AuctionRecord.mk "" "" "" "D" "Q" "").description ∧
      rowGet [("Description", "D"), ("Quantity", "Q")] "Quantity" =
        some (AuctionRecord.mk "" "" "" "D" "Q" "").quantity ∧
      (rowGet [("Description", "D"), ("Quantity", "Q")] "Auction List No." = none →
        (AuctionRecord.mk "" "" "" "D" "Q" "").auctionListNo = "") ∧
      (rowGet [("Description", "D"), ("Quantity", "Q")] "Lot No." = none →
        (AuctionRecord.mk "" "" "" "D" "Q" "").lotNo = "") ∧
      (rowGet [("Description", "D"), ("Quantity", "Q")] "Unit" = none →
        (AuctionRecord.mk "" "" "" "D" "Q" "").unit = "") ∧
      (rowGet [("Description", "D"), ("Quantity", "Q")] "Date of Auction" = none →
        (AuctionRecord.mk "" "" "" "D" "Q" "").dateOfAuction = "")) :=
  ⟨by decide,
    claim_C8_amended [("Description", "D"), ("Quantity", "Q")] ⟨2024, 1, 1⟩
      ⟨2024, 12, 28⟩ (AuctionRecord.mk "" "" "" "D" "Q" "") (by decide)⟩

/-- C8 as frozen is false on the code: the pipeline returns a record
whose `description` field is the empty string, because the code checks
column presence, not non-emptiness. -/
theorem claim_C8_counterexample :
    getGovernmentAuctionData fetchC8 2023 1 2023 1 "EN" =
      Except.ok (PipeResult.records [⟨"", "", "", "", "1", ""⟩]) ∧
    (AuctionRecord.mk "" "" "" "" "1" "").description = "" := by
  constructor
  · unfold getGovernmentAuctionData
    rw [getDataTraced_run fetchC8 2023 1 2023 1 "EN" "EN" ⟨2023, 1, 1⟩ ⟨2023, 1, 28⟩
      rfl rfl]
    rfl
  · rfl

/-- C9 (amended): when the constructed start date is greater than the end
date and all fetches succeed, the call returns a record list, never an
error, with start and end used as constructed (no reordering); the date
filter rejects every row whose date parses, so if every fetched row has a
parseable date the result is empty — but rows with unparseable dates pass
the filter and can still appear. -/
theorem claim_C9_amended (fetch : String → FetchResult)
    (sy sm ey em : Int) (language lang : String) (sd ed : PyDate)
    (hlang : validate_language language = Except.ok lang)
    (hrange : create_date_range sy sm ey em = Except.ok (sd, ed))
    (hlt : pyDateLt ed sd = true)
    (hfetch : ∀ u m, fetch u ≠ FetchResult.err m) :
    (∃ rs, getGovernmentAuctionData fetch sy sm ey em language =
        Except.ok (PipeResult.records rs)) ∧
    ((∀ u rows, fetch u = FetchResult.rows rows →
        ∀ r ∈ rows, pyStrptimeDMY (rowGetD r "Date of Auction" "") ≠ none) →
      getGovernmentAuctionData fetch sy sm ey em language =
        Except.ok (PipeResult.records [])) := by
  constructor
  · obtain ⟨rs, hrs⟩ := runIds_noerr fetch lang sd ed (specIds sy ey) []
      (fun p _ m => hfetch _ m)
    refine ⟨rs, ?_⟩
    unfold getGovernmentAuctionData
    rw [getDataTraced_run fetch sy sm ey em language lang sd ed hlang hrange, hrs]
    rfl
  · intro hpar
    unfold getGovernmentAuctionData
    rw [getDataTraced_run fetch sy sm ey em language lang sd ed hlang hrange]
    rw [runIds_all_filtered fetch lang sd ed (specIds sy ey) []
      (fun p _ m => hfetch _ m)
      (fun p _ rs hf => by
        rw [List.filterMap_eq_nil_iff]
        intro r hr
        cases hP : pyStrptimeDMY (rowGetD r "Date of Auction" "") with
        | none => exact absurd hP (hpar _ rs hf r hr)
        | some d => exact process_none_of_empty_range hlt r d hP)]
    rfl

theorem claim_C9_witness :
    pyDateLt ⟨2024, 1, 28⟩ ⟨2024, 5, 1⟩ = true ∧
    (∃ rs, getGovernmentAuctionData (fun _ => FetchResult.rows []) 2024 5 2024 1 "EN" =
        Except.ok (PipeResult.records rs)) :=
  ⟨by decide,
    (claim_C9_amended (fun _ => FetchResult.rows []) 2024 5 2024 1 "EN" "EN"
      ⟨2024, 5, 1⟩ ⟨2024, 1, 28⟩ rfl rfl (by decide)
      (fun _ _ h => FetchResult.noConfusion h)).1⟩

/-- C9 as frozen is false on the code: with start 2024-05-01 greater than
end 2024-01-28 and all fetches succeeding, a fetched row whose date does
not parse is passed through, so the call returns a non-empty record
list. -/
theorem claim_C9_counterexample :
    create_date_range 2024 5 2024 1 = Except.ok (⟨2024, 5, 1⟩, ⟨2024, 1, 28⟩) ∧
    pyDateLt ⟨2024, 1, 28⟩ ⟨2024, 5, 1⟩ = true ∧
    getGovernmentAuctionData fetchC9 2024 5 2024 1 "EN" =
      Except.ok (PipeResult.records [⟨"bad", "", "", "X", "1", ""⟩]) ∧
    PipeResult.records [(⟨"bad", "", "", "X", "1", ""⟩ : AuctionRecord)] ≠
      PipeResult.records [] := by
  refine ⟨rfl, by decide, ?_, by decide⟩
  unfold getGovernmentAuctionData
  rw [getDataTraced_run fetchC9 2024 5 2024 1 "EN" "EN" ⟨2024, 5, 1⟩ ⟨2024, 1, 28⟩
    rfl rfl]
  rfl

/-- C10: for all integer inputs — including end year below start year —
and every fetch function, the traversal loop terminates: the number of
iterations (fetched identifiers) is bounded by 24 per year in the range,
the list number decreasing each iteration and the year decreasing every
24 iterations until it drops below the start year. -/
theorem claim_C10_termination (fetch : String → FetchResult) (lang : String)
    (sy : Int) (sd ed : PyDate) (ey : Int) (acc : List AuctionRecord) :
    ((auctionLoop fetch lang sy sd ed ey 24 acc).1).length ≤
      24 * (ey + 1 - sy).toNat := by
  rw [auctionLoop_eq_runIds fetch lang sy sd ed ey 24 acc (by omega),
    ← specIds_eq_traversalIds]
  calc ((runIds fetch lang sd ed (specIds sy ey) acc).1).length
      ≤ (specIds sy ey).length := runIds_fst_length fetch lang sd ed _ acc
    _ = 24 * (ey + 1 - sy).toNat := specIds_length sy ey
